import Mathlib

/-!
Shallow embedding of the URL-shortener service (Express + Mongoose) and
proofs of its specified properties.

Source files embedded:
- `src/server/models/Url.js` (the Url document schema and its methods
  `isExpired`, `hasReachedMaxClicks`, `isAccessible`, `addClick`);
- `src/server/utils/urlUtils.js` (`generateShortCode`,
  `generateSecureShortCode`);
- `src/server/routes/urls.js` (`POST /shorten`, `DELETE /:id`,
  `DELETE /bulk/delete`);
- the redirect route (`GET /:shortCode`).

Modelling conventions: timestamps are `Int` (milliseconds since epoch, as
in JS `Date`); the Mongo collection is a `List UrlRecord`; `findOne`
becomes `List.find?`; randomness (`Math.random`, `crypto.randomBytes`) is
passed in as an explicit stream of draws; JS truthiness of optional fields
is rendered through `Option` (with the numeric-zero and empty-string
falsy cases made explicit where the code relies on them).
-/

namespace UrlShortener

/-- Click metadata passed to `addClick` by the redirect handler
(`clickData` in `routes/redirect`): `country`/`city` are `Option` because
the JS reads them with a `|| "Unknown"` fallback. -/
structure ClickData where
  ip : String
  userAgent : String
  referer : String
  country : Option String
  city : Option String
deriving DecidableEq, Repr

/-- One entry of `clickHistory` in the Url schema. -/
structure ClickEntry where
  ip : String
  userAgent : String
  referer : String
  country : String
  city : String
  timestamp : Int
deriving DecidableEq, Repr

/-- The Url document (`src/server/models/Url.js` schema), restricted to
the fields the route handlers read or write. `maxClicks = none` and
`expiresAt = none` are the schema defaults `null` (unlimited / never
expires); `userId = none` is an anonymous URL. -/
structure UrlRecord where
  id : Nat
  originalUrl : String
  shortCode : String
  customCode : Bool
  userId : Option Nat
  clicks : Nat
  maxClicks : Option Nat
  expiresAt : Option Int
  isActive : Bool
  title : Option String
  description : Option String
  tags : List String
  clickHistory : List ClickEntry
deriving DecidableEq, Repr

/-- Url method `isExpired`: `if (!this.expiresAt) return false; return
new Date() > this.expiresAt;`. `now` is the current time. -/
def isExpired (now : Int) (r : UrlRecord) : Bool :=
  match r.expiresAt with
  | none => false
  | some t => decide (t < now)

/-- Url method `hasReachedMaxClicks`: `if (!this.maxClicks) return false;
return this.clicks >= this.maxClicks;`. JS truthiness makes a stored 0
behave like the `null` default, so `some 0` also returns false. -/
def hasReachedMaxClicks (r : UrlRecord) : Bool :=
  match r.maxClicks with
  | none => false
  | some m => if m = 0 then false else decide (m ≤ r.clicks)

/-- Url method `isAccessible`: `this.isActive && !this.isExpired() &&
!this.hasReachedMaxClicks()`. -/
def isAccessible (now : Int) (r : UrlRecord) : Bool :=
  r.isActive && !(isExpired now r) && !(hasReachedMaxClicks r)

/-- The history entry `addClick` pushes: `country: clickData.country ||
"Unknown"`, `city: clickData.city || "Unknown"`, `timestamp: new Date()`. -/
def mkClickEntry (cd : ClickData) (now : Int) : ClickEntry :=
  { ip := cd.ip
    userAgent := cd.userAgent
    referer := cd.referer
    country := cd.country.getD "Unknown"
    city := cd.city.getD "Unknown"
    timestamp := now }

/-- Url method `addClick`: increments `clicks`, pushes one history entry,
then trims `clickHistory` to its last 100 entries (`slice(-100)`) when the
length exceeds 100. The `save()` persistence step is modelled at the
caller (the redirect handler) as a store update. -/
def addClick (cd : ClickData) (now : Int) (r : UrlRecord) : UrlRecord :=
  let history := r.clickHistory ++ [mkClickEntry cd now]
  let trimmed := if history.length > 100 then history.drop (history.length - 100) else history
  { r with clicks := r.clicks + 1, clickHistory := trimmed }

/-- Iterated `addClick`, one store round-trip per recorded click. -/
def applyClicks (cds : List (ClickData × Int)) (r : UrlRecord) : UrlRecord :=
  cds.foldl (fun acc p => addClick p.1 p.2 acc) r

lemma addClick_clicks (cd : ClickData) (now : Int) (r : UrlRecord) :
    (addClick cd now r).clicks = r.clicks + 1 := rfl

lemma addClick_clickHistory (cd : ClickData) (now : Int) (r : UrlRecord) :
    (addClick cd now r).clickHistory =
      (r.clickHistory ++ [mkClickEntry cd now]).drop
        ((r.clickHistory ++ [mkClickEntry cd now]).length - 100) := by
  show (if (r.clickHistory ++ [mkClickEntry cd now]).length > 100
      then (r.clickHistory ++ [mkClickEntry cd now]).drop
        ((r.clickHistory ++ [mkClickEntry cd now]).length - 100)
      else r.clickHistory ++ [mkClickEntry cd now]) = _
  split
  · rfl
  · next h =>
      have hz : (r.clickHistory ++ [mkClickEntry cd now]).length - 100 = 0 := by omega
      rw [hz, List.drop_zero]

lemma applyClicks_clicks (cds : List (ClickData × Int)) (r : UrlRecord) :
    (applyClicks cds r).clicks = r.clicks + cds.length := by
  induction cds generalizing r with
  | nil => simp [applyClicks]
  | cons hd tl ih =>
      have : applyClicks (hd :: tl) r = applyClicks tl (addClick hd.1 hd.2 r) := rfl
      rw [this, ih, addClick_clicks, List.length_cons]
      omega

/-- Claim C3: with a positive click limit `N`, an active, unexpired record
is accessible exactly while `clicks < N`; it becomes inaccessible exactly
when `clicks` reaches `N`. -/
theorem maxClicks_boundary (r : UrlRecord) (N : Nat) (now : Int)
    (hmax : r.maxClicks = some N) (hpos : 0 < N)
    (hactive : r.isActive = true) (hexp : isExpired now r = false) :
    (isAccessible now r = true ↔ r.clicks < N) ∧
    (isAccessible now r = false ↔ N ≤ r.clicks) := by
  have hne : ¬ N = 0 := by omega
  constructor
  · unfold isAccessible hasReachedMaxClicks
    rw [hmax, hactive, hexp]
    simp [hne]
  · unfold isAccessible hasReachedMaxClicks
    rw [hmax, hactive, hexp]
    simp [hne]

/-- Witness for `maxClicks_boundary` at a concrete record with
`maxClicks = 2`, `clicks = 1`. -/
theorem maxClicks_boundary_witness :
    let r : UrlRecord :=
      { id := 1, originalUrl := "https://example.com", shortCode := "abc123",
        customCode := false, userId := none, clicks := 1, maxClicks := some 2,
        expiresAt := none, isActive := true, title := none, description := none,
        tags := [], clickHistory := [] }
    (isAccessible 0 r = true ↔ r.clicks < 2) ∧
    (isAccessible 0 r = false ↔ 2 ≤ r.clicks) :=
  maxClicks_boundary _ 2 0 rfl (by decide) rfl rfl

/-- Claim C4: a record whose `expiresAt` is strictly in the past is never
accessible, whatever its clicks, limit or active flag. -/
theorem expired_never_accessible (r : UrlRecord) (t now : Int)
    (hexp : r.expiresAt = some t) (hpast : t < now) :
    isAccessible now r = false := by
  unfold isAccessible isExpired
  rw [hexp]
  simp [hpast]

/-- Witness for `expired_never_accessible` at a concrete record expired at
time 5, evaluated at time 6. -/
theorem expired_never_accessible_witness :
    isAccessible 6
      { id := 1, originalUrl := "https://example.com", shortCode := "abc123",
        customCode := false, userId := none, clicks := 0, maxClicks := none,
        expiresAt := some 5, isActive := true, title := none, description := none,
        tags := [], clickHistory := [] } = false :=
  expired_never_accessible _ 5 6 rfl (by decide)

/-- Claim C5: after any `addClick` the history holds at most 100 entries,
and it equals the suffix of most recently appended entries of the
pre-trim history (oldest dropped first): the drop count is saturating, so
no entry is dropped while the appended history fits in 100. -/
theorem clickHistory_bounded_fifo (cd : ClickData) (now : Int) (r : UrlRecord) :
    (addClick cd now r).clickHistory.length ≤ 100 ∧
    (addClick cd now r).clickHistory =
      (r.clickHistory ++ [mkClickEntry cd now]).drop
        ((r.clickHistory ++ [mkClickEntry cd now]).length - 100) := by
  refine ⟨?_, addClick_clickHistory cd now r⟩
  rw [addClick_clickHistory cd now r, List.length_drop]
  omega

/-- Claim C9: each `addClick` increments `clicks` by exactly 1 and appends
exactly one entry (pre-trim); hence over any run of clicks the counter
grows by exactly the number of appended entries, so from a fresh record
(`clicks = 0`) it equals the total append count. -/
theorem clicks_counts_appends (cd : ClickData) (now : Int) (r : UrlRecord)
    (cds : List (ClickData × Int)) (r₀ : UrlRecord) :
    (addClick cd now r).clicks = r.clicks + 1 ∧
    (r.clickHistory ++ [mkClickEntry cd now]).length = r.clickHistory.length + 1 ∧
    (applyClicks cds r₀).clicks = r₀.clicks + cds.length := by
  refine ⟨addClick_clicks cd now r, by simp, applyClicks_clicks cds r₀⟩

/-- The 62-character alphabet `chars` shared by both generators in
`src/server/utils/urlUtils.js`. -/
def shortCodeChars : List Char :=
  "ABCDEFGHIJKLMNOPQRSTUVWXYZabcdefghijklmnopqrstuvwxyz0123456789".toList

/-- JS `String.prototype.charAt`: the one-character string at index `i`,
or the empty string when `i` is out of range. -/
def charAt (s : List Char) (i : Nat) : List Char :=
  match s.get? i with
  | some c => [c]
  | none => []

/-- The function `generateShortCode(length = 6)`: builds `result` by
appending `chars.charAt(Math.floor(Math.random() * chars.length))` for
each loop index. The successive values of
`Math.floor(Math.random() * chars.length)` are passed in as the stream
`randFloor`; `Math.random()` lying in `[0, 1)` means `randFloor i < 62`,
which is a hypothesis of the theorems, not baked into the definition. -/
def generateShortCode (randFloor : Nat → Nat) (len : Nat := 6) : List Char :=
  (List.range len).foldl (fun result i => result ++ charAt shortCodeChars (randFloor i)) []

/-- The function `generateSecureShortCode(length = 6)`: draws `length`
bytes (`crypto.randomBytes`, passed in as the stream `bytes`) and appends
`chars[bytes[i] % chars.length]` for each index. -/
def generateSecureShortCode (bytes : Nat → Nat) (len : Nat := 6) : List Char :=
  (List.range len).foldl
    (fun result i => result ++ charAt shortCodeChars (bytes i % shortCodeChars.length)) []

lemma foldl_append_eq (f : Nat → List Char) :
    ∀ (l : List Nat) (acc : List Char),
      l.foldl (fun result i => result ++ f i) acc = acc ++ (l.map f).flatten := by
  intro l
  induction l with
  | nil => intro acc; simp
  | cons hd tl ih => intro acc; simp [List.foldl_cons, ih]

lemma charAt_length_of_lt (s : List Char) (i : Nat) (h : i < s.length) :
    (charAt s i).length = 1 := by
  unfold charAt
  rw [List.get?_eq_getElem?, List.getElem?_eq_getElem h]
  rfl

lemma charAt_subset (s : List Char) (i : Nat) (c : Char) (hc : c ∈ charAt s i) :
    c ∈ s := by
  unfold charAt at hc
  cases hget : s.get? i with
  | none => rw [hget] at hc; cases hc
  | some d =>
      rw [hget] at hc
      cases hc with
      | head => exact List.get?_mem hget
      | tail _ h => cases h

lemma generateShortCode_eq_join (randFloor : Nat → Nat) (len : Nat) :
    generateShortCode randFloor len =
      ((List.range len).map (fun i => charAt shortCodeChars (randFloor i))).flatten := by
  unfold generateShortCode
  rw [foldl_append_eq]
  rfl

lemma generateSecureShortCode_eq_join (bytes : Nat → Nat) (len : Nat) :
    generateSecureShortCode bytes len =
      ((List.range len).map
        (fun i => charAt shortCodeChars (bytes i % shortCodeChars.length))).flatten := by
  unfold generateSecureShortCode
  rw [foldl_append_eq]
  rfl

lemma shortCodeChars_length : shortCodeChars.length = 62 := by decide

lemma join_singleton_length (g : Nat → List Char) (l : List Nat)
    (h : ∀ i ∈ l, (g i).length = 1) : ((l.map g).flatten).length = l.length := by
  induction l with
  | nil => simp
  | cons hd tl ih =>
      simp only [List.map_cons, List.flatten_cons, List.length_append,
        h hd (List.mem_cons_self hd tl)]
      rw [ih (fun i hi => h i (List.mem_cons_of_mem hd hi)), List.length_cons]
      omega

lemma mem_join_map (g : Nat → List Char) (l : List Nat) (c : Char)
    (hc : c ∈ (l.map g).flatten) : ∃ i ∈ l, c ∈ g i := by
  induction l with
  | nil => simp at hc
  | cons hd tl ih =>
      simp only [List.map_cons, List.flatten_cons, List.mem_append] at hc
      cases hc with
      | inl h => exact ⟨hd, List.mem_cons_self hd tl, h⟩
      | inr h =>
          obtain ⟨i, hi, hmem⟩ := ih h
          exact ⟨i, List.mem_cons_of_mem hd hi, hmem⟩

/-- Claim C8: for every requested length, both generators return exactly
that many characters, all drawn from the 62-character alphabet
`[A-Za-z0-9]`; for `generateShortCode` this uses the `Math.random`
contract that every floored draw is below 62. -/
theorem shortCode_generators_length_charset (randFloor bytes : Nat → Nat) (len : Nat)
    (hrand : ∀ i, i < len → randFloor i < 62) :
    (generateShortCode randFloor len).length = len ∧
    (∀ c ∈ generateShortCode randFloor len, c ∈ shortCodeChars ∧ c.isAlphanum) ∧
    (generateSecureShortCode bytes len).length = len ∧
    (∀ c ∈ generateSecureShortCode bytes len, c ∈ shortCodeChars ∧ c.isAlphanum) ∧
    shortCodeChars.length = 62 := by
  have halphanum : ∀ c ∈ shortCodeChars, c.isAlphanum := by decide
  refine ⟨?_, ?_, ?_, ?_, shortCodeChars_length⟩
  · rw [generateShortCode_eq_join]
    rw [join_singleton_length _ _ (fun i hi => ?_), List.length_range]
    exact charAt_length_of_lt _ _ (by
      rw [shortCodeChars_length]
      exact hrand i (List.mem_range.mp hi))
  · intro c hc
    rw [generateShortCode_eq_join] at hc
    obtain ⟨i, _, hmem⟩ := mem_join_map _ _ _ hc
    have hs := charAt_subset _ _ _ hmem
    exact ⟨hs, halphanum c hs⟩
  · rw [generateSecureShortCode_eq_join]
    rw [join_singleton_length _ _ (fun i hi => ?_), List.length_range]
    apply charAt_length_of_lt
    exact Nat.mod_lt _ (by rw [shortCodeChars_length]; omega)
  · intro c hc
    rw [generateSecureShortCode_eq_join] at hc
    obtain ⟨i, _, hmem⟩ := mem_join_map _ _ _ hc
    have hs := charAt_subset _ _ _ hmem
    exact ⟨hs, halphanum c hs⟩

/-- Witness for `shortCode_generators_length_charset` at the default
length 6, with concrete draw streams. -/
theorem shortCode_generators_length_charset_witness :
    (∀ i, i < 6 → (fun j => j % 62) i < 62) ∧
    ((generateShortCode (fun j => j % 62) 6).length = 6 ∧
    (∀ c ∈ generateShortCode (fun j => j % 62) 6, c ∈ shortCodeChars ∧ c.isAlphanum) ∧
    (generateSecureShortCode (fun j => j * 37) 6).length = 6 ∧
    (∀ c ∈ generateSecureShortCode (fun j => j * 37) 6, c ∈ shortCodeChars ∧ c.isAlphanum) ∧
    shortCodeChars.length = 62) :=
  ⟨fun i _ => Nat.mod_lt i (by omega),
   shortCode_generators_length_charset (fun j => j % 62) (fun j => j * 37) 6
     (fun i _ => Nat.mod_lt i (by omega))⟩

/-- The query `Url.findOne({ shortCode })`: first record in the store
whose `shortCode` equals the given code. -/
def findByCode (store : List UrlRecord) (code : String) : Option UrlRecord :=
  store.find? (fun r => r.shortCode == code)

/-- The constant `maxAttempts = 10` of the `POST /shorten` generation
loop. -/
def maxAttempts : Nat := 10

/-- The `do { shortCode = generateShortCode(); attempts++; if (attempts
>= maxAttempts) return 500; } while (await Url.findOne({ shortCode }))`
loop of `POST /shorten`. The value `gen k` is what `generateShortCode()`
returns on its `(k+1)`-th call; `attempts` is the counter before the
current iteration (the handler starts it at 0). `none` is the
early-return 500 response; `some code` exits the loop with that code. -/
def generateLoop (store : List UrlRecord) (gen : Nat → String) (attempts : Nat) :
    Option String :=
  let shortCode := gen attempts
  if h : attempts + 1 ≥ maxAttempts then none
  else
    if (findByCode store shortCode).isSome then generateLoop store gen (attempts + 1)
    else some shortCode
termination_by maxAttempts - attempts
decreasing_by omega

lemma generateLoop_eq (store : List UrlRecord) (gen : Nat → String) (attempts : Nat) :
    generateLoop store gen attempts =
      if attempts + 1 ≥ maxAttempts then none
      else
        if (findByCode store (gen attempts)).isSome then
          generateLoop store gen (attempts + 1)
        else some (gen attempts) := by
  rw [generateLoop]
  rfl

lemma generateLoop_none_iff_aux (store : List UrlRecord) (gen : Nat → String) :
    ∀ (fuel attempts : Nat), maxAttempts - attempts ≤ fuel →
      (generateLoop store gen attempts = none ↔
        ∀ k, attempts ≤ k → k + 1 < maxAttempts →
          (findByCode store (gen k)).isSome = true) := by
  intro fuel
  induction fuel with
  | zero =>
      intro attempts hle
      have hge : attempts + 1 ≥ maxAttempts := by omega
      rw [generateLoop_eq, if_pos hge]
      constructor
      · intro _ k hk hk2
        omega
      · intro _
        rfl
  | succ n ih =>
      intro attempts _
      rw [generateLoop_eq]
      by_cases hge : attempts + 1 ≥ maxAttempts
      · rw [if_pos hge]
        constructor
        · intro _ k hk hk2
          omega
        · intro _
          rfl
      · rw [if_neg hge]
        by_cases hfound : (findByCode store (gen attempts)).isSome = true
        · rw [if_pos hfound, ih (attempts + 1) (by omega)]
          constructor
          · intro hall k hk hk2
            rcases Nat.eq_or_lt_of_le hk with heq | hlt
            · exact heq ▸ hfound
            · exact hall k hlt hk2
          · intro hall k hk hk2
            exact hall k (by omega) hk2
        · rw [if_neg hfound]
          constructor
          · intro habs
            cases habs
          · intro hall
            exact absurd (hall attempts (Nat.le_refl _) (by omega)) hfound

lemma generateLoop_some_not_found_aux (store : List UrlRecord) (gen : Nat → String) :
    ∀ (fuel attempts : Nat) (c : String), maxAttempts - attempts ≤ fuel →
      generateLoop store gen attempts = some c → findByCode store c = none := by
  intro fuel
  induction fuel with
  | zero =>
      intro attempts c hle hsome
      rw [generateLoop_eq, if_pos (by omega : attempts + 1 ≥ maxAttempts)] at hsome
      cases hsome
  | succ n ih =>
      intro attempts c hle hsome
      rw [generateLoop_eq] at hsome
      by_cases hge : attempts + 1 ≥ maxAttempts
      · rw [if_pos hge] at hsome
        cases hsome
      · rw [if_neg hge] at hsome
        by_cases hfound : (findByCode store (gen attempts)).isSome = true
        · rw [if_pos hfound] at hsome
          exact ih (attempts + 1) c (by omega) hsome
        · rw [if_neg hfound] at hsome
          cases hsome
          exact Option.not_isSome_iff_eq_none.mp hfound

lemma generateLoop_some_not_found (store : List UrlRecord) (gen : Nat → String)
    (c : String) (hsome : generateLoop store gen 0 = some c) :
    findByCode store c = none :=
  generateLoop_some_not_found_aux store gen maxAttempts 0 c (by omega) hsome

/-- Response of the `POST /shorten` handler, after express-validator has
accepted the body (validation failures are out of scope of the claims).
`invalidUrl` is the 400 `"Invalid URL format"` response, `genExhausted`
the 500 `"Unable to generate unique short code. Please try again."`
response, `customTaken` the 400 `"Custom code is already taken"` response
and `created` the 201 response carrying the saved document. -/
inductive ShortenResp where
  | invalidUrl
  | genExhausted
  | customTaken
  | created (url : UrlRecord)
deriving DecidableEq, Repr

/-- HTTP status of each `POST /shorten` response. -/
def shortenStatus : ShortenResp → Nat
  | .invalidUrl => 400
  | .genExhausted => 500
  | .customTaken => 400
  | .created _ => 201

/-- Body of a `POST /shorten` request (fields destructured from
`req.body`), plus `userId` for `req.user?._id` set by `optionalAuth`.
Absent optional fields are `none`. -/
structure ShortenRequest where
  originalUrl : String
  customCode : Option String
  title : Option String
  description : Option String
  expiresAt : Option Int
  maxClicks : Option Nat
  tags : Option (List String)
  userId : Option Nat
deriving DecidableEq, Repr

/-- The `urlData` document built and saved by `POST /shorten`:
`customCode: !!customCode`, `clicks`/`isActive`/`clickHistory` take the
schema defaults, `tags: tags || []`. `nextId` models the fresh `_id`
Mongo assigns on insert. -/
def mkUrlRecord (nextId : Nat) (req : ShortenRequest) (code : String)
    (isCustom : Bool) : UrlRecord :=
  { id := nextId
    originalUrl := req.originalUrl
    shortCode := code
    customCode := isCustom
    userId := req.userId
    clicks := 0
    maxClicks := req.maxClicks
    expiresAt := req.expiresAt
    isActive := true
    title := req.title
    description := req.description
    tags := req.tags.getD []
    clickHistory := [] }

/-- The `POST /shorten` handler from the `isValidUrl` check onwards:
`let shortCode = customCode; if (!shortCode) { ...generation loop... }
else { single findOne, reject if taken }`, then build and save the
document. `validUrl` stands for `isValidUrl` (built on the platform `URL`
parser); JS falsiness of `customCode` covers both an absent field and an
empty string. The returned store is the collection after the request. -/
def postShorten (validUrl : String → Bool) (gen : Nat → String) (nextId : Nat)
    (store : List UrlRecord) (req : ShortenRequest) : ShortenResp × List UrlRecord :=
  if !(validUrl req.originalUrl) then (.invalidUrl, store)
  else
    let custom := req.customCode.getD ""
    if custom = "" then
      match generateLoop store gen 0 with
      | none => (.genExhausted, store)
      | some code => (.created (mkUrlRecord nextId req code false),
          store ++ [mkUrlRecord nextId req code false])
    else
      if (findByCode store custom).isSome then (.customTaken, store)
      else (.created (mkUrlRecord nextId req custom true),
          store ++ [mkUrlRecord nextId req custom true])

/-- A `POST /shorten` body holding only the original URL, as in the
example of the spec: every optional field absent. -/
def basicRequest (u : String) (uid : Option Nat) : ShortenRequest :=
  { originalUrl := u, customCode := none, title := none, description := none,
    expiresAt := none, maxClicks := none, tags := none, userId := uid }

lemma maxAttempts_eq : maxAttempts = 10 := rfl

lemma generateLoop_none_iff (store : List UrlRecord) (gen : Nat → String) :
    generateLoop store gen 0 = none ↔
      ∀ k, k < 9 → (findByCode store (gen k)).isSome = true := by
  rw [generateLoop_none_iff_aux store gen maxAttempts 0 (by omega)]
  constructor
  · intro hall k hk
    exact hall k (Nat.zero_le k) (by rw [maxAttempts_eq]; omega)
  · intro hall k _ hk
    rw [maxAttempts_eq] at hk
    exact hall k (by omega)

/-- Claim C2, amended: without a custom code the handler fails with the
500 exhaustion response exactly when the first 9 generated candidates all
collide with the store; the 10th candidate is generated but the attempt
budget is exhausted before it is ever checked. -/
theorem gen_exhaustion_after_nine_collisions (validUrl : String → Bool)
    (gen : Nat → String) (nextId : Nat) (store : List UrlRecord)
    (req : ShortenRequest) (hcustom : req.customCode = none)
    (hvalid : validUrl req.originalUrl = true) :
    ((postShorten validUrl gen nextId store req).1 = .genExhausted ↔
      ∀ k, k < 9 → (findByCode store (gen k)).isSome = true) ∧
    shortenStatus .genExhausted = 500 := by
  refine ⟨?_, rfl⟩
  rw [← generateLoop_none_iff store gen]
  unfold postShorten
  rw [hcustom, hvalid]
  simp only [Bool.not_true, Bool.false_eq_true, if_false, Option.getD_none, if_pos rfl]
  cases hloop : generateLoop store gen 0 with
  | none => simp
  | some code => simp

/-- Witness for `gen_exhaustion_after_nine_collisions` at a concrete
request and an empty store. -/
theorem gen_exhaustion_after_nine_collisions_witness :
    (basicRequest "https://example.com" none).customCode = none ∧
    (fun _ : String => true) (basicRequest "https://example.com" none).originalUrl = true ∧
    ((((postShorten (fun _ => true) (fun _ => "abc123") 1 []
        (basicRequest "https://example.com" none)).1 = .genExhausted) ↔
      ∀ k, k < 9 → (findByCode [] ((fun _ : Nat => "abc123") k)).isSome = true) ∧
    shortenStatus .genExhausted = 500) :=
  ⟨rfl, rfl,
    gen_exhaustion_after_nine_collisions (fun _ => true) (fun _ => "abc123") 1 []
      (basicRequest "https://example.com" none) rfl rfl⟩

/-- A stored document carrying only a short code, used to populate
concrete stores. -/
def stubRecord (code : String) : UrlRecord :=
  { id := 0, originalUrl := "https://example.org/long", shortCode := code,
    customCode := false, userId := none, clicks := 0, maxClicks := none,
    expiresAt := none, isActive := true, title := none, description := none,
    tags := [], clickHistory := [] }

/-- A store occupying the codes `k0` to `k8`. -/
def storeNine : List UrlRecord :=
  ["k0", "k1", "k2", "k3", "k4", "k5", "k6", "k7", "k8"].map stubRecord

/-- Candidate stream whose `(k+1)`-th generated code is `k0`, `k1`, ... -/
def genTen : Nat → String :=
  fun i => ["k0", "k1", "k2", "k3", "k4", "k5", "k6", "k7", "k8", "k9"].getD i "z"

/-- Counterexample to claim C2 as stated: with the first 9 candidates
colliding and the 10th candidate `k9` free, the request still fails with
the 500 exhaustion response, so it is not the case that all 10 candidates
are checked and the failure needs all 10 to collide. -/
theorem gen_budget_counterexample :
    (postShorten (fun _ => true) genTen 1 storeNine
        (basicRequest "https://example.com" none)).1 = .genExhausted ∧
    (findByCode storeNine (genTen 9)).isSome = false := by
  have hnine : ∀ k, k < 9 → (findByCode storeNine (genTen k)).isSome = true := by decide
  have hnone : generateLoop storeNine genTen 0 = none :=
    (generateLoop_none_iff storeNine genTen).mpr hnine
  refine ⟨?_, by decide⟩
  simp [postShorten, basicRequest, hnone]

/-- Claim C7: with a caller-supplied custom code already present in the
store (exact match on `shortCode` by a single `findOne`), the handler
answers the 400 taken response and leaves the store unchanged. -/
theorem custom_code_taken_rejected (validUrl : String → Bool) (gen : Nat → String)
    (nextId : Nat) (store : List UrlRecord) (req : ShortenRequest) (c : String)
    (hc : req.customCode = some c) (hne : c ≠ "")
    (hvalid : validUrl req.originalUrl = true)
    (htaken : (findByCode store c).isSome = true) :
    postShorten validUrl gen nextId store req = (.customTaken, store) ∧
    shortenStatus .customTaken = 400 := by
  refine ⟨?_, rfl⟩
  unfold postShorten
  rw [hc, hvalid]
  simp only [Bool.not_true, Bool.false_eq_true, if_false, Option.getD_some]
  rw [if_neg hne, if_pos htaken]

/-- Witness for `custom_code_taken_rejected`: requesting the code `taken`
against a store already holding it. -/
theorem custom_code_taken_rejected_witness :
    ({ basicRequest "https://example.com" none with
        customCode := some "taken" } : ShortenRequest).customCode = some "taken" ∧
    "taken" ≠ "" ∧
    (fun _ : String => true) "https://example.com" = true ∧
    (findByCode [stubRecord "taken"] "taken").isSome = true ∧
    (postShorten (fun _ => true) (fun _ => "abc123") 1 [stubRecord "taken"]
        { basicRequest "https://example.com" none with customCode := some "taken" } =
      (.customTaken, [stubRecord "taken"]) ∧
    shortenStatus .customTaken = 400) :=
  ⟨rfl, by decide, rfl, by decide,
    custom_code_taken_rejected (fun _ => true) (fun _ => "abc123") 1
      [stubRecord "taken"]
      { basicRequest "https://example.com" none with customCode := some "taken" }
      "taken" rfl (by decide) rfl (by decide)⟩

/-- Response of the redirect route `GET /:shortCode`: 404 when the code
is unknown, 410 with a reason message when the record is inaccessible,
and `res.redirect(302, url.originalUrl)` otherwise. -/
inductive RedirectResp where
  | notFound
  | gone (message : String)
  | redirect (status : Nat) (location : String)
deriving DecidableEq, Repr

/-- HTTP status of each redirect-route response. -/
def redirectStatus : RedirectResp → Nat
  | .notFound => 404
  | .gone _ => 410
  | .redirect s _ => s

/-- Reason message of the 410 branch: `message` starts as the generic
text and is overwritten by the `if (url.isExpired()) ... else if
(url.hasReachedMaxClicks()) ... else if (!url.isActive) ...` chain. -/
def goneMessage (now : Int) (r : UrlRecord) : String :=
  if isExpired now r then "This short URL has expired"
  else if hasReachedMaxClicks r then "This short URL has reached its maximum click limit"
  else if !r.isActive then "This short URL has been deactivated"
  else "This short URL is no longer active"

/-- Persistence of `url.save()` after mutating the document returned by
`findOne`: the first record matching `p` is replaced by its updated
version, the rest of the collection is untouched. -/
def replaceFirst (p : UrlRecord → Bool) (f : UrlRecord → UrlRecord) :
    List UrlRecord → List UrlRecord
  | [] => []
  | r :: rest => if p r then f r :: rest else r :: replaceFirst p f rest

/-- The redirect handler `GET /:shortCode`: `findOne({ shortCode })`,
404 when absent, 410 with `goneMessage` when not accessible, otherwise
`addClick` (persisted through the store) and a 302 redirect to the
original URL. -/
def getRedirect (store : List UrlRecord) (code : String) (cd : ClickData)
    (now : Int) : RedirectResp × List UrlRecord :=
  match findByCode store code with
  | none => (.notFound, store)
  | some url =>
      if !(isAccessible now url) then (.gone (goneMessage now url), store)
      else
        (.redirect 302 url.originalUrl,
          replaceFirst (fun r => r.shortCode == code) (addClick cd now) store)

/-- Claim C6: a found but inaccessible record yields a 410 whose reason is
picked with priority expired > max-clicks-reached > deactivated: expiry
wins over everything, the click limit wins over deactivation, and a
record that is neither expired nor at its limit must be deactivated. -/
theorem gone_reason_priority (store : List UrlRecord) (code : String)
    (cd : ClickData) (now : Int) (r : UrlRecord)
    (hfind : findByCode store code = some r)
    (hacc : isAccessible now r = false) :
    getRedirect store code cd now = (.gone (goneMessage now r), store) ∧
    redirectStatus (.gone (goneMessage now r)) = 410 ∧
    (isExpired now r = true → goneMessage now r = "This short URL has expired") ∧
    (isExpired now r = false → hasReachedMaxClicks r = true →
      goneMessage now r = "This short URL has reached its maximum click limit") ∧
    (isExpired now r = false → hasReachedMaxClicks r = false →
      goneMessage now r = "This short URL has been deactivated") := by
  refine ⟨?_, rfl, ?_, ?_, ?_⟩
  · unfold getRedirect
    rw [hfind]
    simp [hacc]
  · intro hexp
    unfold goneMessage
    rw [hexp]
    rfl
  · intro hexp hmax
    unfold goneMessage
    rw [hexp, hmax]
    rfl
  · intro hexp hmax
    have hinactive : r.isActive = false := by
      unfold isAccessible at hacc
      rw [hexp, hmax] at hacc
      simpa using hacc
    unfold goneMessage
    rw [hexp, hmax, hinactive]
    rfl

/-- Witness for `gone_reason_priority`: a record that is simultaneously
expired, at its click limit and deactivated reports expiry. -/
theorem gone_reason_priority_witness :
    let r : UrlRecord :=
      { stubRecord "dead12" with
          expiresAt := some 5, maxClicks := some 1, clicks := 3, isActive := false }
    findByCode [r] "dead12" = some r ∧
    isAccessible 10 r = false ∧
    (getRedirect [r] "dead12"
        { ip := "203.0.113.7", userAgent := "Mozilla", referer := "Direct",
          country := none, city := none } 10 =
      (.gone (goneMessage 10 r), [r]) ∧
    redirectStatus (.gone (goneMessage 10 r)) = 410 ∧
    (isExpired 10 r = true → goneMessage 10 r = "This short URL has expired") ∧
    (isExpired 10 r = false → hasReachedMaxClicks r = true →
      goneMessage 10 r = "This short URL has reached its maximum click limit") ∧
    (isExpired 10 r = false → hasReachedMaxClicks r = false →
      goneMessage 10 r = "This short URL has been deactivated")) :=
  ⟨by decide, by decide,
    gone_reason_priority [_] "dead12" _ 10 _ (by decide) (by decide)⟩

lemma find?_append_of_none {α : Type} (p : α → Bool) :
    ∀ (l₁ l₂ : List α), l₁.find? p = none → (l₁ ++ l₂).find? p = l₂.find? p := by
  intro l₁
  induction l₁ with
  | nil => intro l₂ _; rfl
  | cons a tl ih =>
      intro l₂ hnone
      rw [List.find?_cons] at hnone
      cases hpa : p a with
      | true => rw [hpa] at hnone; cases hnone
      | false =>
          rw [hpa] at hnone
          rw [List.cons_append, List.find?_cons, hpa]
          exact ih l₂ hnone

lemma replaceFirst_append_of_all_neg (p : UrlRecord → Bool) (f : UrlRecord → UrlRecord)
    (x : UrlRecord) :
    ∀ (l : List UrlRecord), (∀ r ∈ l, p r = false) →
      replaceFirst p f (l ++ [x]) = l ++ [if p x then f x else x] := by
  intro l
  induction l with
  | nil =>
      intro _
      show (if p x then f x :: [] else x :: replaceFirst p f []) = _
      split
      · rfl
      · rfl
  | cons a tl ih =>
      intro hall
      have hpa : p a = false := hall a (List.mem_cons_self a tl)
      show (if p a then f a :: (tl ++ [x]) else a :: replaceFirst p f (tl ++ [x])) = _
      rw [hpa, if_neg (by simp), ih (fun r hr => hall r (List.mem_cons_of_mem a hr))]
      rfl

lemma addClick_shortCode (cd : ClickData) (now : Int) (r : UrlRecord) :
    (addClick cd now r).shortCode = r.shortCode := rfl

lemma redirect_of_fresh (store : List UrlRecord) (M : UrlRecord) (cd : ClickData)
    (now : Int) (hall : ∀ r ∈ store, (r.shortCode == M.shortCode) = false)
    (hAcc : isAccessible now M = true) (hclicks : M.clicks = 0) :
    (getRedirect (store ++ [M]) M.shortCode cd now).1 =
      .redirect 302 M.originalUrl ∧
    (findByCode (getRedirect (store ++ [M]) M.shortCode cd now).2 M.shortCode).map
      (fun r => r.clicks) = some 1 := by
  have hnone : store.find? (fun r => r.shortCode == M.shortCode) = none :=
    List.find?_eq_none.mpr (fun r hr => by simp [hall r hr])
  have hfind₂ : findByCode (store ++ [M]) M.shortCode = some M := by
    unfold findByCode
    rw [find?_append_of_none _ store [M] hnone]
    simp [List.find?_cons]
  have hstep : getRedirect (store ++ [M]) M.shortCode cd now =
      (.redirect 302 M.originalUrl,
        replaceFirst (fun r => r.shortCode == M.shortCode) (addClick cd now)
          (store ++ [M])) := by
    unfold getRedirect
    rw [hfind₂]
    simp [hAcc]
  rw [hstep]
  refine ⟨rfl, ?_⟩
  show (findByCode (replaceFirst _ _ (store ++ [M])) M.shortCode).map _ = some 1
  rw [replaceFirst_append_of_all_neg _ _ _ store hall, if_pos (by simp)]
  unfold findByCode
  rw [find?_append_of_none _ store [addClick cd now M] hnone]
  simp [List.find?_cons, addClick_shortCode, addClick_clicks, hclicks]

/-- Claim C1: a successful shorten of a valid URL without a custom code
creates a record storing the original URL with zero clicks (status 201),
and an immediate `GET /:shortCode` on the generated code answers a 302
redirect to the original URL, the stored field `clicks` of the stored record moving from 0
to 1. -/
theorem shorten_then_redirect (validUrl : String → Bool) (gen : Nat → String)
    (nextId : Nat) (store : List UrlRecord) (u : String) (uid : Option Nat)
    (cd : ClickData) (now : Int) (urec : UrlRecord) (store₂ : List UrlRecord)
    (hvalid : validUrl u = true)
    (hpost : postShorten validUrl gen nextId store (basicRequest u uid) =
      (.created urec, store₂)) :
    urec.originalUrl = u ∧ urec.clicks = 0 ∧
    shortenStatus (.created urec) = 201 ∧
    (getRedirect store₂ urec.shortCode cd now).1 = .redirect 302 u ∧
    redirectStatus (.redirect 302 u) = 302 ∧
    (findByCode (getRedirect store₂ urec.shortCode cd now).2 urec.shortCode).map
      (fun r => r.clicks) = some 1 := by
  unfold postShorten at hpost
  rw [show (basicRequest u uid).originalUrl = u from rfl, hvalid] at hpost
  simp only [Bool.not_true, Bool.false_eq_true, if_false, basicRequest,
    Option.getD_none, if_pos rfl] at hpost
  cases hloop : generateLoop store gen 0 with
  | none =>
      rw [hloop] at hpost
      simp at hpost
  | some code =>
      rw [hloop] at hpost
      simp only [if_true] at hpost
      obtain ⟨hrec, hstore⟩ := hpost
      have hfree : findByCode store code = none :=
        generateLoop_some_not_found store gen code hloop
      have hall : ∀ r ∈ store,
          (r.shortCode ==
            (mkUrlRecord nextId (basicRequest u uid) code false).shortCode) = false := by
        intro r hr
        simpa using List.find?_eq_none.mp hfree r hr
      have hfresh := redirect_of_fresh store
        (mkUrlRecord nextId (basicRequest u uid) code false) cd now hall rfl rfl
      exact ⟨rfl, rfl, rfl, hfresh.1, rfl, hfresh.2⟩

/-- The record created in the witness scenario for
`shorten_then_redirect`. -/
def exRecord : UrlRecord :=
  mkUrlRecord 1 (basicRequest "https://example.com/a/very/long/path" none)
    "abc123" false

/-- The click metadata used in the witness scenarios. -/
def exClick : ClickData :=
  { ip := "203.0.113.7", userAgent := "Mozilla", referer := "Direct",
    country := none, city := none }

/-- Witness for `shorten_then_redirect`: shortening the example of the spec
URL against an empty store with generator output `abc123`. -/
theorem shorten_then_redirect_witness :
    (fun _ : String => true) "https://example.com/a/very/long/path" = true ∧
    postShorten (fun _ => true) (fun _ => "abc123") 1 []
      (basicRequest "https://example.com/a/very/long/path" none) =
        (.created exRecord, [exRecord]) ∧
    (exRecord.originalUrl = "https://example.com/a/very/long/path" ∧
    exRecord.clicks = 0 ∧
    shortenStatus (.created exRecord) = 201 ∧
    (getRedirect [exRecord] exRecord.shortCode exClick 7).1 =
      .redirect 302 "https://example.com/a/very/long/path" ∧
    redirectStatus (.redirect 302 "https://example.com/a/very/long/path") = 302 ∧
    (findByCode (getRedirect [exRecord] exRecord.shortCode exClick 7).2
      exRecord.shortCode).map (fun r => r.clicks) = some 1) := by
  have hloop : generateLoop [] (fun _ => "abc123") 0 = some "abc123" := by
    rw [generateLoop_eq]
    simp [maxAttempts, findByCode]
  have hpost : postShorten (fun _ => true) (fun _ => "abc123") 1 []
      (basicRequest "https://example.com/a/very/long/path" none) =
        (.created exRecord, [exRecord]) := by
    unfold postShorten
    simp only [Bool.not_true, Bool.false_eq_true, if_false, basicRequest,
      Option.getD_none, if_pos rfl, hloop]
    rfl
  exact ⟨rfl, hpost,
    shorten_then_redirect (fun _ => true) (fun _ => "abc123") 1 []
      "https://example.com/a/very/long/path" none exClick 7 exRecord [exRecord]
      rfl hpost⟩

/-- Response of `DELETE /api/urls/:id`: 404 when `findOneAndDelete`
matches nothing, 200 otherwise. -/
inductive DeleteResp where
  | notFound
  | deleted
deriving DecidableEq, Repr

/-- HTTP status of each single-delete response. -/
def deleteStatus : DeleteResp → Nat
  | .notFound => 404
  | .deleted => 200

/-- Removal of the one document `findOneAndDelete` matched: the first
record satisfying `p` disappears, everything else is untouched. -/
def removeFirst (p : UrlRecord → Bool) : List UrlRecord → List UrlRecord
  | [] => []
  | r :: rest => if p r then rest else r :: removeFirst p rest

/-- The `DELETE /:id` handler: `Url.findOneAndDelete({ _id:
req.params.id, userId: req.user._id })`, 404 when no document matches
both the id and the authenticated caller. -/
def deleteUrl (store : List UrlRecord) (callerId urlId : Nat) :
    DeleteResp × List UrlRecord :=
  match store.find? (fun r => r.id == urlId && r.userId == some callerId) with
  | none => (.notFound, store)
  | some _ =>
      (.deleted, removeFirst (fun r => r.id == urlId && r.userId == some callerId) store)

/-- The `DELETE /bulk/delete` handler: `Url.deleteMany({ _id: { $in:
urlIds }, userId: req.user._id })`; returns the deleted count and the
remaining collection. -/
def bulkDelete (store : List UrlRecord) (callerId : Nat) (urlIds : List Nat) :
    Nat × List UrlRecord :=
  let remaining :=
    store.filter (fun r => !(urlIds.contains r.id && r.userId == some callerId))
  (store.length - remaining.length, remaining)

lemma mem_removeFirst_of_neg (p : UrlRecord → Bool) (r : UrlRecord) :
    ∀ (l : List UrlRecord), r ∈ l → p r = false → r ∈ removeFirst p l := by
  intro l
  induction l with
  | nil => intro hmem _; cases hmem
  | cons a tl ih =>
      intro hmem hpr
      show r ∈ (if p a then tl else a :: removeFirst p tl)
      cases hmem with
      | head =>
          rw [hpr, if_neg (by simp)]
          exact List.mem_cons_self r _
      | tail _ htl =>
          cases hpa : p a with
          | true => rw [if_pos rfl]; exact htl
          | false =>
              rw [if_neg (by simp)]
              exact List.mem_cons_of_mem a (ih htl hpr)

/-- Claim C10: the two delete endpoints only ever remove records owned by
the authenticated caller: any record owned by another user or anonymous
survives both `DELETE /:id` and `DELETE /bulk/delete` whatever ids the
request names, and the single delete answers 404 when no record matches
both the id and the caller. -/
theorem delete_only_callers_records (store : List UrlRecord)
    (callerId urlId : Nat) (urlIds : List Nat) :
    (∀ r ∈ store, r.userId ≠ some callerId →
      r ∈ (deleteUrl store callerId urlId).2 ∧
      r ∈ (bulkDelete store callerId urlIds).2) ∧
    ((∀ r ∈ store, ¬(r.id = urlId ∧ r.userId = some callerId)) →
      deleteUrl store callerId urlId = (.notFound, store) ∧
      deleteStatus .notFound = 404) := by
  constructor
  · intro r hmem howner
    have hbeq : (r.userId == some callerId) = false := by
      simpa using howner
    constructor
    · unfold deleteUrl
      cases hfind : store.find? (fun s => s.id == urlId && s.userId == some callerId) with
      | none => exact hmem
      | some _ =>
          exact mem_removeFirst_of_neg _ r store hmem (by rw [hbeq, Bool.and_false])
    · unfold bulkDelete
      exact List.mem_filter.mpr ⟨hmem, by rw [hbeq, Bool.and_false, Bool.not_false]⟩
  · intro hnone
    have hfind : store.find? (fun s => s.id == urlId && s.userId == some callerId) = none := by
      apply List.find?_eq_none.mpr
      intro s hs
      have := hnone s hs
      simp only [Bool.and_eq_true, beq_iff_eq] at *
      tauto
    unfold deleteUrl
    rw [hfind]
    exact ⟨rfl, rfl⟩

/-- A record owned by user 2 with id 7, for the delete witness. -/
def otherRecord : UrlRecord :=
  { stubRecord "other1" with id := 7, userId := some 2 }

/-- A record owned by user 1 with id 5, for the delete witness. -/
def mineRecord : UrlRecord :=
  { stubRecord "mine01" with id := 5, userId := some 1 }

/-- Witness for `delete_only_callers_records`: caller 1 deleting id 99
(owned by nobody) and bulk-deleting ids 5 and 7 leaves the record of user 2 in
place, and the single delete answers 404. -/
theorem delete_only_callers_records_witness :
    (otherRecord ∈ ([otherRecord, mineRecord] : List UrlRecord) ∧
      otherRecord.userId ≠ some 1 ∧
      otherRecord ∈ (deleteUrl [otherRecord, mineRecord] 1 99).2 ∧
      otherRecord ∈ (bulkDelete [otherRecord, mineRecord] 1 [5, 7]).2) ∧
    ((∀ r ∈ ([otherRecord, mineRecord] : List UrlRecord),
        ¬(r.id = 99 ∧ r.userId = some 1)) ∧
      deleteUrl [otherRecord, mineRecord] 1 99 = (.notFound, [otherRecord, mineRecord]) ∧
      deleteStatus .notFound = 404) := by
  have h := delete_only_callers_records [otherRecord, mineRecord] 1 99 [5, 7]
  have h1 := h.1 otherRecord (by decide) (by decide)
  have h2 := h.2 (by decide)
  exact ⟨⟨by decide, by decide, h1.1, h1.2⟩, ⟨by decide, h2.1, h2.2⟩⟩

end UrlShortener
